import Mathlib

/-!
Verification of the GoSnap URL-shortener core against its specification.

The Go source is shallowly embedded: Go strings are `List Char`, `int64`
is `Int` with explicit two's-complement wrapping where overflow matters,
a Go panic is `Option.none`, and fallible calls return `Except`.
External collaborators (PostgreSQL via pgx, Redis, `net/url`) are modelled
as abstract state-passing functions, exactly as the spec's §6 contracts
describe them.
-/

set_option maxRecDepth 40000

namespace GoSnap

/-! ## Code codec: `internal/shortid/generator.go` -/

namespace shortid

/-- `const base62Chars = "0123456789ABCDEFGHIJKLMNOPQRSTUVWXYZabcdefghijklmnopqrstuvwxyz"`. -/
def base62Chars : List Char :=
  "0123456789ABCDEFGHIJKLMNOPQRSTUVWXYZabcdefghijklmnopqrstuvwxyz".toList

/-- The digit-extraction loop of `Generator.Encode`: while `number > 0`,
append `base62Chars[number % 62]` and divide by 62.  The string builder
appends, so the head of the list is the least-significant digit, exactly
as the bytes are written in Go. -/
def encodeDigitsLSB (n : Nat) : List Char :=
  if h : n = 0 then []
  else base62Chars[n % 62]! :: encodeDigitsLSB (n / 62)
termination_by n
decreasing_by exact Nat.div_lt_self (Nat.pos_of_ne_zero h) (by norm_num)

/-- One iteration body of the reversal loop:
`runes[i], runes[j] = runes[j], runes[i]` (both right-hand sides are read
before either assignment). -/
def swapAt (runes : List Char) (i j : Nat) : List Char :=
  let vi := runes[i]!
  let vj := runes[j]!
  (runes.set i vj).set j vi

/-- The reversal loop of `Generator.Encode` as written in the source:
`for i, j := 0, len(runes)-1; i < j; i, j = i+1, j+1` — note that the
post-statement moves `j` up, not down.  Reading `runes[j]` with
`j >= len(runes)` panics in Go; the panic is `none` here. -/
def reverseRunes (runes : List Char) (i j : Nat) : Option (List Char) :=
  if i < j then
    if h : j < runes.length then
      reverseRunes (swapAt runes i j) (i + 1) (j + 1)
    else none
  else some runes
termination_by runes.length - j
decreasing_by simp only [swapAt, List.length_set]; omega

/-- `Generator.Encode` (base 62).  `none` is a runtime panic.
For `number < 0` the digit loop body never runs and the empty string is
returned, as in Go. -/
def Encode (number : Int) : Option (List Char) :=
  if number = 0 then some [base62Chars[0]!]
  else
    let digits := if number > 0 then encodeDigitsLSB number.toNat else []
    reverseRunes digits 0 (digits.length - 1)

/-- Two's-complement wrap into `int64`, the defined behaviour of Go's
signed arithmetic on overflow. -/
def int64Wrap (n : Int) : Int := (n + 2 ^ 63) % 2 ^ 64 - 2 ^ 63

/-- `int64(math.Pow(62, p))`.  For `p ≤ 10` the float64 result is the exact
integer `62^p` (it is `2^p * 31^p` with `31^p < 2^53`) and fits in `int64`,
so the conversion is exact.  For `p ≥ 11` the float exceeds the `int64`
range and Go's conversion is implementation-dependent; on amd64/arm64 it
yields `math.MinInt64`, which is what this model uses.  No theorem below
depends on the `p ≥ 11` branch. -/
def powInt64 (p : Nat) : Int :=
  if (62 : Nat) ^ p ≤ 2 ^ 63 - 1 then ((62 : Nat) ^ p : Int) else -(2 ^ 63)

/-- `strings.IndexRune` scanning one list: `0` at a match, `-1` when the
rune never occurs, position of the first occurrence otherwise (every
alphabet character is one byte, so byte index and rune position
coincide). -/
def indexRuneAux (c : Char) : List Char → Int
  | [] => -1
  | d :: rest =>
    if d = c then 0
    else
      let r := indexRuneAux c rest
      if r = -1 then -1 else r + 1

/-- `strings.IndexRune(base62Chars, char)`. -/
def indexRune62 (c : Char) : Int := indexRuneAux c base62Chars

/-- The loop of `Generator.Decode`: `i` is the rune position, the power is
`len(encoded) - i - 1`, an unknown character returns `-1` at once, and the
accumulator is `int64` arithmetic (each `*` and `+` wraps). -/
def decodeAux (len : Nat) : Nat → Int → List Char → Int
  | _, acc, [] => acc
  | i, acc, c :: rest =>
    let index := indexRune62 c
    if index = -1 then -1
    else decodeAux len (i + 1)
      (int64Wrap (acc + int64Wrap (index * powInt64 (len - i - 1)))) rest

/-- `Generator.Decode`. -/
def Decode (encoded : List Char) : Int :=
  decodeAux encoded.length 0 0 encoded

/-- The spec's encoder (§4.1): the standard base-62 positional
representation, most-significant digit first, with `encode(0) = "0"`.
This is the reference the source's `Encode` is compared against. -/
def specEncode (n : Nat) : List Char :=
  if n = 0 then [base62Chars[0]!] else (encodeDigitsLSB n).reverse

/-- The spec's decoder value (§4.1): each character's index weighted by the
power of 62 of its position from the least-significant end, in exact
(unbounded) integer arithmetic.  `decodeAux`'s shape with `len` and the
running position `i`. -/
def specDecodeVal (len : Nat) : Nat → List Char → Int
  | _, [] => 0
  | i, c :: rest => indexRune62 c * (62 : Int) ^ (len - i - 1) + specDecodeVal len (i + 1) rest

end shortid

/-! ## Input validators: `pkg/validator/shortcode.go` and `pkg/validator/url.go` -/

namespace validator

def MinShortCodeLength : Nat := 1

def MaxShortCodeLength : Nat := 10

/-- Membership in the character class of `validShortCodeRegex =
^[0-9A-Za-z]+$`: the code-point ranges 0-9, A-Z, a-z. -/
def isBase62Class (c : Char) : Bool :=
  (48 ≤ c.toNat && c.toNat ≤ 57) || (65 ≤ c.toNat && c.toNat ≤ 90) ||
    (97 ≤ c.toNat && c.toNat ≤ 122)

/-- The UTF-8 byte width of one rune, so that `goLen` is Go's `len(s)`
(byte length) for a string holding these runes. -/
def utf8Len (c : Char) : Nat :=
  if c.toNat < 0x80 then 1
  else if c.toNat < 0x800 then 2
  else if c.toNat < 0x10000 then 3
  else 4

/-- Go's `len(shortCode)`: the byte length of the string. -/
def goLen (s : List Char) : Nat := (s.map utf8Len).sum

/-- `IsValidShortCode`: empty check, byte-length bounds, then the regex
`^[0-9A-Za-z]+$` (on a non-empty string the anchored `+` is exactly
"every character is in the class"). -/
def IsValidShortCode (s : List Char) : Bool :=
  if s.isEmpty then false
  else
    let length := goLen s
    if length < MinShortCodeLength || length > MaxShortCodeLength then false
    else s.all isBase62Class

/-- `unicode.IsSpace` as `strings.TrimSpace` consults it, for the Latin-1
range: `\t \n \v \f \r`, space, U+0085, U+00A0.  (Go also counts the
code points above U+00FF with the White_Space property; no theorem below
depends on those.) -/
def isGoSpace (c : Char) : Bool :=
  c = ' ' || c = '\t' || c = '\n' || c = Char.ofNat 11 || c = Char.ofNat 12 ||
    c = '\r' || c = Char.ofNat 0x85 || c = Char.ofNat 0xA0

/-- `strings.TrimSpace`: drop the space runes from both ends. -/
def trimSpaceGo (s : List Char) : List Char :=
  ((s.dropWhile isGoSpace).reverse.dropWhile isGoSpace).reverse

/-- `NormalizeURL`: trim surrounding whitespace, then prepend `https://`
unless an `http://` or `https://` prefix is already there. -/
def NormalizeURL (s : List Char) : List Char :=
  let t := trimSpaceGo s
  if !("http://".toList.isPrefixOf t) && !("https://".toList.isPrefixOf t) then
    "https://".toList ++ t
  else t

/-- Model of the external `net/url.Parse` host extraction, for strings that
begin with `http://` or `https://` (the only strings `IsValidURL` hands it
after its prefix check): the authority is what follows `//` up to the first
`/`, `?` or `#`, and `URL.Host` is the authority with the userinfo (up to
the last `@`) stripped, port included.  `url.Parse`'s error returns for
exotic malformed strings are not modelled; no theorem below depends on
them. -/
def urlHost (s : List Char) : List Char :=
  let rest := (s.dropWhile (· != '/')).drop 2
  let authority := rest.takeWhile (fun c => c != '/' && c != '?' && c != '#')
  if authority.contains '@' then (authority.reverse.takeWhile (· != '@')).reverse
  else authority

/-- `IsValidURL`: non-empty, `http://` or `https://` prefix, parses with a
non-empty host. -/
def IsValidURL (s : List Char) : Bool :=
  if s.isEmpty then false
  else if !("http://".toList.isPrefixOf s) && !("https://".toList.isPrefixOf s) then false
  else !(urlHost s).isEmpty

end validator

/-! ## Repository layer: `internal/repo/postgres.go` and `internal/repo/redis.go` -/

namespace repo

/-- The sentinel errors of package `repo`, plus `other` for any error that
is none of them (pgx/redis/json errors surfaced unmapped). -/
inductive RepoErr
  | notFound
  | alreadyExists
  | invalidShortCode
  | other
deriving DecidableEq

/-- `domain.URL`.  `createdAt` is an abstract timestamp. -/
structure URL where
  id : Int
  shortCode : List Char
  longURL : List Char
  createdAt : Int
  clicks : Int
deriving DecidableEq

/-- What the pgx driver can report to this repo: a unique-constraint
violation (SQLSTATE 23505), no rows, or anything else. -/
inductive PgxErr
  | uniqueViolation
  | noRows
  | connection
deriving DecidableEq

/-- The backing `pgxpool.Pool` as an abstract state machine: the three SQL
statements the repository issues.  `execIncrement` returns the number of
rows the UPDATE affected. -/
structure PgxPool (σ : Type) where
  insertURL : σ → List Char → List Char → Except PgxErr URL × σ
  selectURL : σ → List Char → Except PgxErr URL × σ
  execIncrement : σ → List Char → Except PgxErr Nat × σ

/-- `PostgresRepo.Create`: validate the code, INSERT, map 23505 to
`ErrAlreadyExists`. -/
def PostgresRepo.Create {σ} (db : PgxPool σ) (s : σ) (shortCode longURL : List Char) :
    Except RepoErr URL × σ :=
  if !validator.IsValidShortCode shortCode then (.error .invalidShortCode, s)
  else
    match db.insertURL s shortCode longURL with
    | (.error .uniqueViolation, s1) => (.error .alreadyExists, s1)
    | (.error _, s1) => (.error .other, s1)
    | (.ok url, s1) => (.ok url, s1)

/-- `PostgresRepo.GetByShortCode`: validate, SELECT, map `pgx.ErrNoRows`
to `ErrNotFound`. -/
def PostgresRepo.GetByShortCode {σ} (db : PgxPool σ) (s : σ) (shortCode : List Char) :
    Except RepoErr URL × σ :=
  if !validator.IsValidShortCode shortCode then (.error .invalidShortCode, s)
  else
    match db.selectURL s shortCode with
    | (.error .noRows, s1) => (.error .notFound, s1)
    | (.error _, s1) => (.error .other, s1)
    | (.ok url, s1) => (.ok url, s1)

/-- `PostgresRepo.IncrementClicksCounter`: validate, UPDATE, `ErrNotFound`
when no row was affected. -/
def PostgresRepo.IncrementClicksCounter {σ} (db : PgxPool σ) (s : σ) (shortCode : List Char) :
    Except RepoErr Unit × σ :=
  if !validator.IsValidShortCode shortCode then (.error .invalidShortCode, s)
  else
    match db.execIncrement s shortCode with
    | (.error _, s1) => (.error .other, s1)
    | (.ok rows, s1) => if rows = 0 then (.error .notFound, s1) else (.ok (), s1)

/-- What the go-redis client can report: `redis.Nil` (key absent) or a
connection-level error. -/
inductive RedisErr
  | nilReply
  | connection
deriving DecidableEq

/-- The backing `redis.Client` as an abstract state machine.  The JSON
marshalling of `domain.URL` is modelled as the identity: marshalling the
record never fails and a stored record unmarshals to itself, so the client
stores `URL` values directly. -/
structure RedisClient (σ : Type) where
  setVal : σ → List Char → URL → Except RedisErr Unit × σ
  getVal : σ → List Char → Except RedisErr URL × σ
  delVal : σ → List Char → Except RedisErr Unit × σ
  existsVal : σ → List Char → Except RedisErr Nat × σ

/-- `RedisRepo.Set`: validate, marshal, SET with TTL. -/
def RedisRepo.Set {σ} (cl : RedisClient σ) (s : σ) (shortCode : List Char) (url : URL) :
    Except RepoErr Unit × σ :=
  if !validator.IsValidShortCode shortCode then (.error .invalidShortCode, s)
  else
    match cl.setVal s shortCode url with
    | (.error _, s1) => (.error .other, s1)
    | (.ok _, s1) => (.ok (), s1)

/-- `RedisRepo.Get`: validate, GET, map `redis.Nil` to `ErrNotFound`,
unmarshal. -/
def RedisRepo.Get {σ} (cl : RedisClient σ) (s : σ) (shortCode : List Char) :
    Except RepoErr URL × σ :=
  if !validator.IsValidShortCode shortCode then (.error .invalidShortCode, s)
  else
    match cl.getVal s shortCode with
    | (.error .nilReply, s1) => (.error .notFound, s1)
    | (.error _, s1) => (.error .other, s1)
    | (.ok url, s1) => (.ok url, s1)

/-- `RedisRepo.Delete`: validate, DEL. -/
def RedisRepo.Delete {σ} (cl : RedisClient σ) (s : σ) (shortCode : List Char) :
    Except RepoErr Unit × σ :=
  if !validator.IsValidShortCode shortCode then (.error .invalidShortCode, s)
  else
    match cl.delVal s shortCode with
    | (.error _, s1) => (.error .other, s1)
    | (.ok _, s1) => (.ok (), s1)

/-- `RedisRepo.Exists`: validate, EXISTS, result is `count != 0`. -/
def RedisRepo.Exists {σ} (cl : RedisClient σ) (s : σ) (shortCode : List Char) :
    Except RepoErr Bool × σ :=
  if !validator.IsValidShortCode shortCode then (.error .invalidShortCode, s)
  else
    match cl.existsVal s shortCode with
    | (.error _, s1) => (.error .other, s1)
    | (.ok n, s1) => (.ok (decide (n ≠ 0)), s1)

end repo

/-! ## Shortener service: `internal/service/shortener.go` -/

namespace service

/-- The service's `PostgresRepository` interface, state-passing over an
abstract store state `σ`. -/
structure PgRepository (σ : Type) where
  create : σ → Int → List Char → List Char → Except repo.RepoErr repo.URL × σ
  getByShortCode : σ → List Char → Except repo.RepoErr repo.URL × σ
  incrementClicksCounter : σ → List Char → Except repo.RepoErr Unit × σ
  getNextID : σ → Except repo.RepoErr Int × σ

/-- The service's `RedisRepository` interface. -/
structure RedisRepository (σ : Type) where
  get : σ → List Char → Except repo.RepoErr repo.URL × σ
  set : σ → List Char → repo.URL → Except repo.RepoErr Unit × σ
  del : σ → List Char → Except repo.RepoErr Unit × σ
  hasKey : σ → List Char → Except repo.RepoErr Bool × σ

/-- The `fmt.Errorf` errors the service returns, one constructor per
message. -/
inductive Err
  | invalidShortCodeFormat
  | shortURLNotFound
  | errorRetrievingLongURL
  | errorRetrievingURLStats
  | invalidURL
  | maxRetriesReached
  | errorGeneratingShortCode
  | errorCreatingShortURL
deriving DecidableEq

/-- `domain.CreateURLResponse`. -/
structure CreateURLResponse where
  shortCode : List Char
  shortURL : List Char
  longURL : List Char
deriving DecidableEq

/-- `domain.StatsResponse`. -/
structure StatsResponse where
  shortCode : List Char
  longURL : List Char
  clicks : Int
  createdAt : Int
deriving DecidableEq

/-- `NewShortenerService`: `clickWorkers = make(chan struct{}, 100)`. -/
def clickWorkersCap : Nat := 100

/-- The `clickWorkers` channel plus a counter of dropped increments:
`sent` is how many tokens sit in the channel's buffer.  Nothing in the
source ever receives from the channel, so no operation decreases `sent`. -/
structure ClickPool where
  sent : Nat
  dropped : Nat
deriving DecidableEq

/-- `incrementClicksAsync`: the `select` sends a token and spawns the
increment goroutine when the buffer has room, otherwise logs
"click workers limit reached" and drops the increment.  The spawned task
(the code it will increment) is appended to `pending`. -/
def incrementClicksAsync (pool : ClickPool) (pending : List (List Char)) (code : List Char) :
    ClickPool × List (List Char) :=
  if pool.sent < clickWorkersCap then
    ({ pool with sent := pool.sent + 1 }, pending ++ [code])
  else
    ({ pool with dropped := pool.dropped + 1 }, pending)

/-- One spawned click goroutine running to completion: it calls
`IncrementClicksCounter` under its own 5-second-timeout context, logs any
error, and exits.  Its body never touches the `clickWorkers` channel, so
the pool is returned unchanged. -/
def clickTaskFinish {σ} (pg : PgRepository σ) (s : σ) (pool : ClickPool) :
    List (List Char) → σ × ClickPool × List (List Char)
  | [] => (s, pool, [])
  | code :: rest => ((pg.incrementClicksCounter s code).2, pool, rest)

/-- Every in-flight click task running to completion, one after the
other. -/
def clickTasksFinishAll {σ} (pg : PgRepository σ) (s : σ) (pool : ClickPool) :
    List (List Char) → σ × ClickPool × List (List Char)
  | [] => (s, pool, [])
  | code :: rest => clickTasksFinishAll pg (pg.incrementClicksCounter s code).2 pool rest

/-- `n` resolutions scheduling their click increments back to back. -/
def admitClicksN (code : List Char) : Nat → ClickPool × List (List Char) → ClickPool × List (List Char)
  | 0, st => st
  | n + 1, (pool, pending) => admitClicksN code n (incrementClicksAsync pool pending code)

/-- `ShortenerService.GetLongURL`: validate the code, try the cache, fall
back to the store, backfill the cache best-effort, schedule the click
increment. -/
def GetLongURL {σ} (pg : PgRepository σ) (rd : RedisRepository σ)
    (st : σ × ClickPool × List (List Char)) (shortCode : List Char) :
    Except Err (List Char) × (σ × ClickPool × List (List Char)) :=
  let (s, pool, pending) := st
  if !validator.IsValidShortCode shortCode then (.error .invalidShortCodeFormat, st)
  else
    match rd.get s shortCode with
    | (.ok url, s1) =>
      let (pool1, pending1) := incrementClicksAsync pool pending shortCode
      (.ok url.longURL, (s1, pool1, pending1))
    | (.error _, s1) =>
      match pg.getByShortCode s1 shortCode with
      | (.error e, s2) =>
        if e = repo.RepoErr.notFound then (.error .shortURLNotFound, (s2, pool, pending))
        else (.error .errorRetrievingLongURL, (s2, pool, pending))
      | (.ok url, s2) =>
        let s3 := (rd.set s2 shortCode url).2
        let (pool1, pending1) := incrementClicksAsync pool pending shortCode
        (.ok url.longURL, (s3, pool1, pending1))

/-- `ShortenerService.GetURLStats`: validate the code, read the store
directly (never the cache), same error taxonomy as resolution. -/
def GetURLStats {σ} (pg : PgRepository σ) (s : σ) (shortCode : List Char) :
    Except Err StatsResponse × σ :=
  if !validator.IsValidShortCode shortCode then (.error .invalidShortCodeFormat, s)
  else
    match pg.getByShortCode s shortCode with
    | (.error e, s1) =>
      if e = repo.RepoErr.notFound then (.error .shortURLNotFound, s1)
      else (.error .errorRetrievingURLStats, s1)
    | (.ok url, s1) =>
      (.ok { shortCode := url.shortCode, longURL := url.longURL,
             clicks := url.clicks, createdAt := url.createdAt }, s1)

/-- `ShortenerService.createShortURLWithRetries`.  `none` is a runtime
panic (the generator's `Encode` can panic).  The retry on
`ErrAlreadyExists` recurses with `attempt+1`; the normalized URL is what
the recursion receives, as in the source where `longURL` was
reassigned. -/
def createShortURLWithRetries {σ} (pg : PgRepository σ) (rd : RedisRepository σ)
    (baseURL : List Char) (s : σ) (longURL : List Char) (attempt maxRetries : Nat) :
    Option (Except Err CreateURLResponse × σ) :=
  if _h : attempt ≥ maxRetries then some (.error .maxRetriesReached, s)
  else
    let normalized := validator.NormalizeURL longURL
    if !validator.IsValidURL normalized then some (.error .invalidURL, s)
    else
      match pg.getNextID s with
      | (.error _, s1) => some (.error .errorGeneratingShortCode, s1)
      | (.ok id, s1) =>
        match shortid.Encode id with
        | none => none
        | some shortCode =>
          match pg.create s1 id shortCode normalized with
          | (.error e, s2) =>
            if e = repo.RepoErr.alreadyExists then
              createShortURLWithRetries pg rd baseURL s2 normalized (attempt + 1) maxRetries
            else some (.error .errorCreatingShortURL, s2)
          | (.ok url, s2) =>
            let s3 := (rd.set s2 shortCode url).2
            some (.ok { shortCode := shortCode,
                        shortURL := baseURL ++ '/' :: shortCode,
                        longURL := normalized }, s3)
termination_by maxRetries - attempt
decreasing_by omega

/-- `ShortenerService.CreateShortURL`: `maxRetries` is 3, set once in
`NewShortenerService`. -/
def CreateShortURL {σ} (pg : PgRepository σ) (rd : RedisRepository σ)
    (baseURL : List Char) (s : σ) (longURL : List Char) :
    Option (Except Err CreateURLResponse × σ) :=
  createShortURLWithRetries pg rd baseURL s longURL 0 3

/-! ### Deterministic in-memory collaborators, used to drive the service
through the spec's scenarios (§9: substitution with in-memory fakes). -/

/-- Association-list lookup by short code, first match wins. -/
def alookup (l : List (List Char × repo.URL)) (code : List Char) : Option repo.URL :=
  match l with
  | [] => none
  | (k, v) :: rest => if k = code then some v else alookup rest code

/-- State of the in-memory fakes: the durable store table and the cache
table. -/
def MemState : Type := List (List Char × repo.URL) × List (List Char × repo.URL)

/-- In-memory Postgres fake: unique on short code, `notFound` when
absent. -/
def pgMem : PgRepository MemState where
  create s id code url :=
    match alookup s.1 code with
    | some _ => (.error .alreadyExists, s)
    | none =>
      let r : repo.URL := { id := id, shortCode := code, longURL := url, createdAt := 0, clicks := 0 }
      (.ok r, ((code, r) :: s.1, s.2))
  getByShortCode s code :=
    match alookup s.1 code with
    | some u => (.ok u, s)
    | none => (.error .notFound, s)
  incrementClicksCounter s code :=
    match alookup s.1 code with
    | some u => (.ok (), ((code, { u with clicks := u.clicks + 1 }) :: s.1, s.2))
    | none => (.error .notFound, s)
  getNextID s := (.ok ((s.1.length : Int) + 1), s)

/-- In-memory Redis fake: hit when present, `notFound` miss otherwise;
`set` overwrites. -/
def rdMem : RedisRepository MemState where
  get s code :=
    match alookup s.2 code with
    | some u => (.ok u, s)
    | none => (.error .notFound, s)
  set s code u := (.ok (), (s.1, (code, u) :: s.2))
  del s _ := (.ok (), s)
  hasKey s code := (.ok (alookup s.2 code).isSome, s)

/-- A cache whose every operation fails (connectivity down): cache misses
on read, cache-write failures on the write path. -/
def rdDown : RedisRepository MemState where
  get s _ := (.error .other, s)
  set s _ _ := (.error .other, s)
  del s _ := (.error .other, s)
  hasKey s _ := (.error .other, s)

/-- Store fake for the collision scenarios, instrumented: the state counts
(`getNextID` calls, `create` calls); the first `conflicts` inserts report
`ErrAlreadyExists`, later ones succeed.  Identifiers are issued 1, 2, 3,
… so every encoding is a single digit. -/
def pgRetry (conflicts : Nat) : PgRepository (Nat × Nat) where
  create s id code url :=
    if s.2 < conflicts then (.error .alreadyExists, (s.1, s.2 + 1))
    else (.ok { id := id, shortCode := code, longURL := url, createdAt := 0, clicks := 0 },
          (s.1, s.2 + 1))
  getByShortCode s _ := (.error .notFound, s)
  incrementClicksCounter s _ := (.ok (), s)
  getNextID s := (.ok ((s.1 : Int) + 1), (s.1 + 1, s.2))

/-- Cache fake for the collision scenarios: always misses, writes
succeed. -/
def rdOk : RedisRepository (Nat × Nat) where
  get s _ := (.error .notFound, s)
  set s _ _ := (.ok (), s)
  del s _ := (.ok (), s)
  hasKey s _ := (.ok false, s)

/-- Store fake with no observable state, for the click-pool scenario. -/
def pgUnit : PgRepository Unit where
  create s _ _ _ := (.error .other, s)
  getByShortCode s _ := (.error .notFound, s)
  incrementClicksCounter s _ := (.ok (), s)
  getNextID s := (.ok 1, s)

/-- 100 resolutions scheduling click increments from a fresh service. -/
def burstState : ClickPool × List (List Char) :=
  admitClicksN ['a'] 100 ({ sent := 0, dropped := 0 }, [])

/-- …and then every one of those 100 spawned tasks running to
completion. -/
def drainedState : Unit × ClickPool × List (List Char) :=
  clickTasksFinishAll pgUnit () burstState.1 burstState.2

end service

/-! ## Codec lemmas, and claims C1 and C2 -/

namespace shortid

theorem encodeDigitsLSB_pos (n : Nat) (h : n ≠ 0) :
    encodeDigitsLSB n = base62Chars[n % 62]! :: encodeDigitsLSB (n / 62) := by
  rw [encodeDigitsLSB]; simp [h]

theorem encodeDigitsLSB_ne_nil (n : Nat) (h : n ≠ 0) : encodeDigitsLSB n ≠ [] := by
  rw [encodeDigitsLSB_pos n h]; simp

/-- When the reversal loop returns at all, it returns a list of the input's
length (each iteration only swaps two elements). -/
theorem reverseRunes_some_length (runes : List Char) (i j : Nat) (r : List Char)
    (h : reverseRunes runes i j = some r) : r.length = runes.length := by
  by_cases hij : i < j
  · rw [reverseRunes] at h
    simp only [hij, if_true] at h
    by_cases hj : j < runes.length
    · simp only [hj, dif_pos] at h
      have ih := reverseRunes_some_length (swapAt runes i j) (i + 1) (j + 1) r h
      simpa [swapAt] using ih
    · simp [hj] at h
  · rw [reverseRunes] at h
    simp only [hij, if_false] at h
    cases h
    rfl
termination_by runes.length - j
decreasing_by simp only [swapAt, List.length_set]; omega

/-- A non-negative input never encodes to the empty string (`Encode 0` is
`"0"`, and a positive input has at least one digit). -/
theorem Encode_nonneg_ne_empty (n : Int) (hn : 0 ≤ n) : Encode n ≠ some [] := by
  unfold Encode
  by_cases h0 : n = 0
  · simp [h0]
  · have hpos : n > 0 := lt_of_le_of_ne hn (Ne.symm h0)
    simp only [h0, if_false, hpos, if_true]
    intro hcontra
    have hlen := reverseRunes_some_length _ _ _ _ hcontra
    have hne : encodeDigitsLSB n.toNat ≠ [] := by
      apply encodeDigitsLSB_ne_nil
      omega
    simp at hlen
    exact hne (List.length_eq_zero.mp hlen.symm)

/-- C1: the spec requires `decode(encode(n)) == n` for every non-negative
64-bit integer.  The code cannot satisfy it: the reversal loop of `Encode`
moves both indices up (`i, j = i+1, j+1`), so for the first two-digit value
62 it reads `runes[2]` of a two-rune slice and panics with an
index-out-of-range error (modelled as `none`); the round trip therefore
never returns 62. -/
theorem encode62_panics : Encode 62 = none := by
  simp [Encode, encodeDigitsLSB, reverseRunes, swapAt]

/-- C2: `Encode` does not compute the base-62 positional representation.
At the failing input 62 the positional representation (`specEncode`, the
spec's digit-extraction-and-reverse) is `"10"`, but `Encode 62` panics;
only `Encode 0 = "0"` of the multi-digit behaviour survives. -/
theorem encode_diverges_from_positional :
    Encode 62 = none ∧ specEncode 62 = ['1', '0'] ∧ Encode 0 = some ['0'] := by
  refine ⟨?_, ?_, ?_⟩
  · simp [Encode, encodeDigitsLSB, reverseRunes, swapAt]
  · simp [specEncode, encodeDigitsLSB]
    decide
  · simp [Encode]
    decide

end shortid

/-! ## Decode analysis, and claims C5 and C9 -/

namespace shortid

theorem int64Wrap_of_lt (n : Int) (h0 : 0 ≤ n) (h1 : n < 2 ^ 63) : int64Wrap n = n := by
  unfold int64Wrap
  have p63 : (2 : Int) ^ 63 = 9223372036854775808 := by norm_num
  have p64 : (2 : Int) ^ 64 = 18446744073709551616 := by norm_num
  rw [Int.emod_eq_of_lt (by omega) (by omega)]
  omega

theorem indexRuneAux_bounds (c : Char) :
    ∀ l : List Char, indexRuneAux c l = -1 ∨
      (0 ≤ indexRuneAux c l ∧ indexRuneAux c l < l.length) := by
  intro l
  induction l with
  | nil => left; rfl
  | cons d rest ih =>
    by_cases hd : d = c
    · right; simp [indexRuneAux, hd]
    · rcases ih with h | ⟨h0, h1⟩
      · left; simp [indexRuneAux, hd, h]
      · right
        have hne : indexRuneAux c rest ≠ -1 := by omega
        simp only [indexRuneAux, hd, if_false, hne, if_neg hne]
        constructor
        · omega
        · simp only [List.length_cons]
          push_cast
          omega

theorem indexRune62_bounds (c : Char) :
    indexRune62 c = -1 ∨ (0 ≤ indexRune62 c ∧ indexRune62 c < 62) := by
  have h := indexRuneAux_bounds c base62Chars
  have hlen : (base62Chars.length : Int) = 62 := by decide
  rw [indexRune62]
  rcases h with h | ⟨h0, h1⟩
  · left; exact h
  · right; exact ⟨h0, by omega⟩

theorem specDecodeVal_nonneg (rest : List Char) :
    ∀ (len i : Nat), (∀ c ∈ rest, indexRune62 c ≠ -1) →
      0 ≤ specDecodeVal len i rest := by
  induction rest with
  | nil => intro len i _; simp [specDecodeVal]
  | cons c tail ih =>
    intro len i hall
    have hc := hall c (by simp)
    rcases indexRune62_bounds c with h | ⟨h0, _⟩
    · exact absurd h hc
    · have htail := ih len (i + 1) (fun d hd => hall d (by simp [hd]))
      have hterm : 0 ≤ indexRune62 c * (62 : Int) ^ (len - i - 1) :=
        mul_nonneg h0 (by positivity)
      simp only [specDecodeVal]
      omega

/-- With the position aligned to the tail (`i + rest.length = len`), the
spec value of the remaining digits is below `62 ^ digits`. -/
theorem specDecodeVal_le (rest : List Char) :
    ∀ (len i : Nat), i + rest.length = len → (∀ c ∈ rest, indexRune62 c ≠ -1) →
      specDecodeVal len i rest + 1 ≤ (62 : Int) ^ rest.length := by
  induction rest with
  | nil => intro len i _ _; simp [specDecodeVal]
  | cons c tail ih =>
    intro len i halign hall
    have hc := hall c (by simp)
    rcases indexRune62_bounds c with h | ⟨h0, h1⟩
    · exact absurd h hc
    · have halign' : (i + 1) + tail.length = len := by
        simp only [List.length_cons] at halign; omega
      have htail := ih len (i + 1) halign' (fun d hd => hall d (by simp [hd]))
      have hp : len - i - 1 = tail.length := by
        simp only [List.length_cons] at halign; omega
      have hpow : (0 : Int) < (62 : Int) ^ tail.length := by positivity
      have hterm : indexRune62 c * (62 : Int) ^ tail.length ≤
          61 * (62 : Int) ^ tail.length :=
        mul_le_mul_of_nonneg_right (by omega) (le_of_lt hpow)
      simp only [specDecodeVal, List.length_cons, hp]
      rw [pow_succ]
      linarith

/-- The loop of `Decode` computes the exact spec value while every
character is in the alphabet and the running total stays inside `int64`:
every wrap is the identity there. -/
theorem decodeAux_exact (rest : List Char) :
    ∀ (len i : Nat) (acc : Int), i + rest.length = len → len ≤ 11 →
      (∀ c ∈ rest, indexRune62 c ≠ -1) →
      0 ≤ acc → acc + specDecodeVal len i rest < 2 ^ 63 →
      decodeAux len i acc rest = acc + specDecodeVal len i rest := by
  induction rest with
  | nil => intro len i acc _ _ _ _ _; simp [decodeAux, specDecodeVal]
  | cons c tail ih =>
    intro len i acc halign hlen hall hacc hsum
    have hc := hall c (by simp)
    rcases indexRune62_bounds c with h | ⟨h0, h1⟩
    · exact absurd h hc
    · have halign' : (i + 1) + tail.length = len := by
        simp only [List.length_cons] at halign; omega
      have hp : len - i - 1 = tail.length := by
        simp only [List.length_cons] at halign; omega
      have hple : len - i - 1 ≤ 10 := by omega
      have hpowfits : (62 : Nat) ^ (len - i - 1) ≤ 2 ^ 63 - 1 := by
        calc (62 : Nat) ^ (len - i - 1) ≤ 62 ^ 10 :=
              Nat.pow_le_pow_right (by norm_num) hple
          _ ≤ 2 ^ 63 - 1 := by norm_num
      have hpoweq : powInt64 (len - i - 1) = (62 : Int) ^ (len - i - 1) := by
        rw [powInt64, if_pos hpowfits]; push_cast; ring
      have hpowpos : (0 : Int) < (62 : Int) ^ (len - i - 1) := by positivity
      have hS : 0 ≤ specDecodeVal len (i + 1) tail :=
        specDecodeVal_nonneg tail len (i + 1) (fun d hd => hall d (by simp [hd]))
      have hterm0 : 0 ≤ indexRune62 c * (62 : Int) ^ (len - i - 1) :=
        mul_nonneg h0 (le_of_lt hpowpos)
      have hspec : specDecodeVal len i (c :: tail) =
          indexRune62 c * (62 : Int) ^ (len - i - 1) + specDecodeVal len (i + 1) tail := rfl
      have htermlt : indexRune62 c * (62 : Int) ^ (len - i - 1) < 2 ^ 63 := by
        rw [hspec] at hsum; omega
      have hacclt : acc + indexRune62 c * (62 : Int) ^ (len - i - 1) < 2 ^ 63 := by
        rw [hspec] at hsum; omega
      have hwrap1 : int64Wrap (indexRune62 c * (62 : Int) ^ (len - i - 1)) =
          indexRune62 c * (62 : Int) ^ (len - i - 1) :=
        int64Wrap_of_lt _ hterm0 htermlt
      have hwrap2 : int64Wrap (acc + indexRune62 c * (62 : Int) ^ (len - i - 1)) =
          acc + indexRune62 c * (62 : Int) ^ (len - i - 1) :=
        int64Wrap_of_lt _ (by omega) hacclt
      have hrec := ih len (i + 1) (acc + indexRune62 c * (62 : Int) ^ (len - i - 1))
        halign' hlen (fun d hd => hall d (by simp [hd])) (by omega)
        (by rw [hspec] at hsum; omega)
      simp only [decodeAux, hc, if_neg hc, hpoweq, hwrap1, hwrap2, hrec, hspec]
      ring_nf
      try simp
      try ring

/-- A character outside the alphabet anywhere in the input makes the whole
decode return `-1` (the loop returns at the first such character). -/
theorem decodeAux_invalid (rest : List Char) :
    ∀ (len i : Nat) (acc : Int), (∃ c ∈ rest, indexRune62 c = -1) →
      decodeAux len i acc rest = -1 := by
  induction rest with
  | nil => intro len i acc h; simp at h
  | cons c tail ih =>
    intro len i acc h
    by_cases hc : indexRune62 c = -1
    · simp [decodeAux, hc]
    · have : ∃ d ∈ tail, indexRune62 d = -1 := by
        rcases h with ⟨d, hd, hind⟩
        rcases List.mem_cons.mp hd with rfl | hmem
        · exact absurd hind hc
        · exact ⟨d, hmem, hind⟩
      simp [decodeAux, hc, ih _ _ _ this]

/-- The exactness wrapper for whole inputs of at most 10 characters (every
valid short code): `Decode` is the spec value and non-negative. -/
theorem Decode_exact (s : List Char) (hall : ∀ c ∈ s, indexRune62 c ≠ -1)
    (hlen : s.length ≤ 10) :
    Decode s = specDecodeVal s.length 0 s ∧ 0 ≤ Decode s := by
  have hle := specDecodeVal_le s s.length 0 (by omega) hall
  have hnn := specDecodeVal_nonneg s s.length 0 hall
  have hpowle : (62 : Int) ^ s.length ≤ 62 ^ 10 :=
    pow_le_pow_right₀ (by norm_num) hlen
  have hlt : specDecodeVal s.length 0 s < 2 ^ 63 := by
    have : (62 : Int) ^ 10 < 2 ^ 63 := by norm_num
    omega
  have hmain := decodeAux_exact s s.length 0 0 (by omega) (by omega) hall le_rfl
    (by omega)
  rw [Decode]
  constructor
  · simpa using hmain
  · rw [hmain]; omega

/-- C5 counterexample: the claim's "for strings made only of alphabet
characters it returns the non-negative weighted value" fails — eleven
`'z'`s are all in the alphabet (index 61) yet the `int64` accumulation of
`62^11 - 1` wraps to a negative number. -/
theorem decode_wraps_negative :
    Decode (List.replicate 11 'z') = -3303671537291560961 ∧ indexRune62 'z' = 61 := by
  constructor
  · decide
  · decide

/-- C5 (amended): a string holding a character outside the alphabet always
decodes to the distinguished value `-1` (never to 0), and an alphabet-only
string of at most 10 characters — every string `Encode` can produce for an
id below `62^10`, and every valid short code — decodes to the exact
non-negative positional value; beyond 10 characters the `int64`
accumulator can wrap and the non-negativity clause fails, as the
counterexample above shows. -/
theorem decode_error_taxonomy :
    (∀ s : List Char, (∃ c ∈ s, indexRune62 c = -1) → Decode s = -1)
    ∧ (∀ s : List Char, (∀ c ∈ s, indexRune62 c ≠ -1) → s.length ≤ 10 →
        Decode s = specDecodeVal s.length 0 s ∧ 0 ≤ Decode s) := by
  constructor
  · intro s h
    rw [Decode]
    exact decodeAux_invalid s s.length 0 0 h
  · intro s hall hlen
    exact Decode_exact s hall hlen

/-- C9 counterexample: `-1` is not produced only for strings with an
out-of-alphabet character — `"LygHa16AHYF"` is alphabet-only (it is the
base-62 form of `2^64 - 1`) and still decodes to `-1` through `int64`
wrap-around. -/
theorem decode_minus_one_from_valid_string :
    Decode "LygHa16AHYF".toList = -1
    ∧ "LygHa16AHYF".toList.all (fun c => decide (indexRune62 c ≠ -1)) = true := by
  constructor
  · decide
  · decide

/-- C9 (amended): `Decode "" = 0 = Decode "0"`, so the empty string — not a
valid short code, and not the encoding of any non-negative input — is
indistinguishable from a valid zero; and within strings of at most 10
characters the `-1` marker arises only from an out-of-alphabet character.
(For 11-character strings `int64` wrap-around can also yield `-1`, as the
counterexample above shows.) -/
theorem decode_empty_indistinguishable_from_zero :
    Decode [] = 0 ∧ Decode ['0'] = 0
    ∧ (∀ n : Int, 0 ≤ n → Encode n ≠ some [])
    ∧ (∀ s : List Char, s.length ≤ 10 → Decode s = -1 →
        ∃ c ∈ s, indexRune62 c = -1) := by
  refine ⟨by decide, by decide, Encode_nonneg_ne_empty, ?_⟩
  intro s hlen hdec
  by_contra hno
  push_neg at hno
  have h := Decode_exact s hno hlen
  omega

end shortid

/-! ## Short-code validator: claim C8 -/

namespace validator

theorem utf8Len_of_class (c : Char) (h : isBase62Class c = true) : utf8Len c = 1 := by
  simp only [isBase62Class, Bool.or_eq_true, Bool.and_eq_true, decide_eq_true_eq] at h
  have hlt : c.toNat < 0x80 := by omega
  rw [utf8Len, if_pos hlt]

theorem goLen_of_class (s : List Char) (h : ∀ c ∈ s, isBase62Class c = true) :
    goLen s = s.length := by
  induction s with
  | nil => rfl
  | cons c tail ih =>
    have hc := utf8Len_of_class c (h c (by simp))
    have ht := ih (fun d hd => h d (by simp [hd]))
    simp only [goLen, List.map_cons, List.sum_cons, List.length_cons] at *
    omega

/-- C8: `IsValidShortCode` accepts exactly the strings of 1 to 10
characters over `[0-9A-Za-z]`.  (For all-alphanumeric strings byte length
and character count coincide, so the byte-length bound is the length
bound; anything with a character outside the class fails the regex.) -/
theorem isValidShortCode_characterization :
    ∀ s : List Char, IsValidShortCode s = true ↔
      (1 ≤ s.length ∧ s.length ≤ 10 ∧ ∀ c ∈ s, isBase62Class c = true) := by
  intro s
  constructor
  · intro h
    rw [IsValidShortCode] at h
    by_cases he : s.isEmpty
    · rw [if_pos he] at h; cases h
    · rw [if_neg he] at h
      by_cases hb : (goLen s < MinShortCodeLength || goLen s > MaxShortCodeLength) = true
      · rw [if_pos hb] at h; cases h
      · rw [if_neg hb] at h
        have hall : ∀ c ∈ s, isBase62Class c = true := by
          simpa [List.all_eq_true] using h
        have hg := goLen_of_class s hall
        simp only [Bool.or_eq_true, decide_eq_true_eq, not_or, not_lt, not_le,
          MinShortCodeLength, MaxShortCodeLength] at hb
        exact ⟨by omega, by omega, hall⟩
  · rintro ⟨h1, h2, h3⟩
    have hg := goLen_of_class s h3
    have hne : s.isEmpty = false := by
      cases s with
      | nil => simp at h1
      | cons c t => rfl
    rw [IsValidShortCode, hne, if_neg (by simp)]
    have hb : (goLen s < MinShortCodeLength || goLen s > MaxShortCodeLength) = false := by
      simp only [MinShortCodeLength, MaxShortCodeLength, Bool.or_eq_false_iff,
        decide_eq_false_iff_not, not_lt, not_le]
      constructor
      · omega
      · simp only [not_lt] at *; omega
    rw [if_neg (by simp [hb])]
    simpa [List.all_eq_true] using h3

end validator

/-! ## Service and repository claims C3, C4, C6, C7, C10 -/

namespace shortid

theorem Encode_one : Encode 1 = some ['1'] := by
  simp [Encode, encodeDigitsLSB, reverseRunes]
  decide

theorem Encode_two : Encode 2 = some ['2'] := by
  simp [Encode, encodeDigitsLSB, reverseRunes]
  decide

theorem Encode_three : Encode 3 = some ['3'] := by
  simp [Encode, encodeDigitsLSB, reverseRunes]
  decide

end shortid

namespace service

/-- C3: the admission pool does not recover.  From a fresh service, 100
scheduled increments are all admitted (none dropped, 100 tasks spawned);
after every one of those tasks has run to completion the pool still holds
its 100 tokens — the goroutine never receives from `clickWorkers` — so the
next increment is dropped even though zero tasks are in flight. -/
theorem clickPool_drop_after_drain :
    burstState.1.sent = 100 ∧ burstState.1.dropped = 0 ∧ burstState.2.length = 100
    ∧ drainedState.2.2 = [] ∧ drainedState.2.1.sent = 100
    ∧ (incrementClicksAsync drainedState.2.1 drainedState.2.2 ['a']).1.dropped = 1 := by
  refine ⟨by decide, by decide, by decide, by decide, by decide, by decide⟩

/-- C4: collision handling.  With the instrumented store (state counts
identifier requests and insert attempts) and an already-normalized valid
URL: one conflict then success yields the second attempt's code `"2"`
(ids 1 then 2) with no error and exactly two identifiers requested; three
consecutive conflicts yield the max-retries error with exactly three
identifiers requested — no fourth. -/
theorem createShortURL_collision_retry :
    (∀ b u : List Char, validator.IsValidURL u = true → validator.NormalizeURL u = u →
      CreateShortURL (pgRetry 1) rdOk b (0, 0) u
        = some (.ok { shortCode := ['2'], shortURL := b ++ '/' :: ['2'], longURL := u },
                (2, 2)))
    ∧ (∀ b u : List Char, validator.IsValidURL u = true → validator.NormalizeURL u = u →
      CreateShortURL (pgRetry 3) rdOk b (0, 0) u
        = some (.error .maxRetriesReached, (3, 3))) := by
  constructor
  · intro b u hvalid hnorm
    rw [CreateShortURL, createShortURLWithRetries]
    simp only [hnorm, hvalid, pgRetry, rdOk]
    norm_num
    rw [createShortURLWithRetries]
    simp only [hnorm, hvalid, pgRetry, rdOk]
    norm_num
    simp [shortid.Encode_one, shortid.Encode_two]
  · intro b u hvalid hnorm
    rw [CreateShortURL, createShortURLWithRetries]
    simp only [hnorm, hvalid, pgRetry, rdOk]
    norm_num
    rw [createShortURLWithRetries]
    simp only [hnorm, hvalid, pgRetry, rdOk]
    norm_num
    rw [createShortURLWithRetries]
    simp only [hnorm, hvalid, pgRetry, rdOk]
    norm_num
    rw [createShortURLWithRetries]
    norm_num
    simp [shortid.Encode_one, shortid.Encode_two, shortid.Encode_three]

/-- C4 witness: both scenarios at the service's own base URL and the test
suite's URL. -/
theorem createShortURL_collision_retry_witness :
    CreateShortURL (pgRetry 1) rdOk "http://localhost:8080".toList (0, 0)
        "https://example.com".toList
      = some (.ok { shortCode := ['2'],
                    shortURL := "http://localhost:8080/2".toList,
                    longURL := "https://example.com".toList }, (2, 2))
    ∧ CreateShortURL (pgRetry 3) rdOk "http://localhost:8080".toList (0, 0)
        "https://example.com".toList
      = some (.error .maxRetriesReached, (3, 3)) := by
  constructor
  · have h := createShortURL_collision_retry.1 "http://localhost:8080".toList
      "https://example.com".toList (by decide) (by decide)
    rw [h]
    rfl
  · exact createShortURL_collision_retry.2 "http://localhost:8080".toList
      "https://example.com".toList (by decide) (by decide)

/-- C6: a validation failure returns the validation error with the
collaborator state untouched — the state is returned as it was handed in,
for every store, every cache and every state type, so no store or cache
operation can have run. -/
theorem validation_failure_no_effects :
    (∀ (σ : Type) (pg : PgRepository σ) (rd : RedisRepository σ) (b : List Char)
        (s : σ) (u : List Char),
      validator.IsValidURL (validator.NormalizeURL u) = false →
      CreateShortURL pg rd b s u = some (.error .invalidURL, s))
    ∧ (∀ (σ : Type) (pg : PgRepository σ) (rd : RedisRepository σ)
        (st : σ × ClickPool × List (List Char)) (code : List Char),
      validator.IsValidShortCode code = false →
      GetLongURL pg rd st code = (.error .invalidShortCodeFormat, st))
    ∧ (∀ (σ : Type) (pg : PgRepository σ) (s : σ) (code : List Char),
      validator.IsValidShortCode code = false →
      GetURLStats pg s code = (.error .invalidShortCodeFormat, s)) := by
  refine ⟨?_, ?_, ?_⟩
  · intro σ pg rd b s u h
    rw [CreateShortURL, createShortURLWithRetries]
    simp [h]
  · intro σ pg rd st code h
    obtain ⟨s, pool, pending⟩ := st
    simp [GetLongURL, h]
  · intro σ pg s code h
    simp [GetURLStats, h]

/-- C6 witness: `"https://"` normalizes to itself and fails URL validation
(empty host); `"bad code!"` fails the short-code syntax; each operation
returns its format error with the in-memory world unchanged. -/
theorem validation_failure_no_effects_witness :
    CreateShortURL pgMem rdMem [] ([], []) "https://".toList
      = some (.error .invalidURL, ([], []))
    ∧ GetLongURL pgMem rdMem (([], []), { sent := 0, dropped := 0 }, []) "bad code!".toList
      = (.error .invalidShortCodeFormat, (([], []), { sent := 0, dropped := 0 }, []))
    ∧ GetURLStats pgMem ([], []) "bad code!".toList
      = (.error .invalidShortCodeFormat, ([], [])) := by
  refine ⟨?_, ?_, ?_⟩
  · exact validation_failure_no_effects.1 MemState pgMem rdMem [] ([], [])
      "https://".toList (by decide)
  · exact validation_failure_no_effects.2.1 MemState pgMem rdMem
      (([], []), { sent := 0, dropped := 0 }, []) "bad code!".toList (by decide)
  · exact validation_failure_no_effects.2.2 MemState pgMem ([], [])
      "bad code!".toList (by decide)

/-- C7: the cache-aside read path.  A valid code absent from the cache and
present in the store resolves to the stored long URL and leaves the record
in the cache, so the same lookup against the resulting state is a cache
hit; with the cache down (every cache call failing) the same resolution
still returns the stored long URL — the failed cache write only gets
logged; and a code absent from both fails with the not-found error, a
different error from the generic retrieval error. -/
theorem cache_miss_read_through :
    (∀ (store cache : List (List Char × repo.URL)) (pool : ClickPool)
        (pending : List (List Char)) (code : List Char) (u : repo.URL),
      validator.IsValidShortCode code = true →
      alookup cache code = none →
      alookup store code = some u →
      (GetLongURL pgMem rdMem ((store, cache), pool, pending) code).1 = .ok u.longURL
      ∧ (rdMem.get (GetLongURL pgMem rdMem ((store, cache), pool, pending) code).2.1
          code).1 = .ok u
      ∧ (GetLongURL pgMem rdMem
          (GetLongURL pgMem rdMem ((store, cache), pool, pending) code).2 code).1
          = .ok u.longURL)
    ∧ (∀ (store cache : List (List Char × repo.URL)) (pool : ClickPool)
        (pending : List (List Char)) (code : List Char) (u : repo.URL),
      validator.IsValidShortCode code = true →
      alookup store code = some u →
      (GetLongURL pgMem rdDown ((store, cache), pool, pending) code).1 = .ok u.longURL)
    ∧ (∀ (store cache : List (List Char × repo.URL)) (pool : ClickPool)
        (pending : List (List Char)) (code : List Char),
      validator.IsValidShortCode code = true →
      alookup cache code = none →
      alookup store code = none →
      (GetLongURL pgMem rdMem ((store, cache), pool, pending) code).1
        = .error .shortURLNotFound)
    ∧ Err.shortURLNotFound ≠ Err.errorRetrievingLongURL := by
  refine ⟨?_, ?_, ?_, by decide⟩
  · intro store cache pool pending code u hvalid hcache hstore
    refine ⟨?_, ?_, ?_⟩
    · simp [GetLongURL, hvalid, rdMem, pgMem, hcache, hstore, incrementClicksAsync]
    · simp [GetLongURL, hvalid, rdMem, pgMem, hcache, hstore, incrementClicksAsync,
        alookup]
    · simp [GetLongURL, hvalid, rdMem, pgMem, hcache, hstore, incrementClicksAsync,
        alookup]
  · intro store cache pool pending code u hvalid hstore
    simp [GetLongURL, hvalid, rdDown, pgMem, hstore, incrementClicksAsync]
  · intro store cache pool pending code hvalid hcache hstore
    simp [GetLongURL, hvalid, rdMem, pgMem, hcache, hstore]

/-- C7 witness: the scenario at a one-record store and an empty cache. -/
theorem cache_miss_read_through_witness :
    (GetLongURL pgMem rdMem
        (([(['a'], { id := 1, shortCode := ['a'],
                     longURL := "https://example.com".toList,
                     createdAt := 0, clicks := 0 })], []),
         { sent := 0, dropped := 0 }, []) ['a']).1
      = .ok "https://example.com".toList
    ∧ (GetLongURL pgMem rdMem (([], []), { sent := 0, dropped := 0 }, []) ['a']).1
      = .error .shortURLNotFound := by
  constructor
  · exact (cache_miss_read_through.1
      [(['a'], { id := 1, shortCode := ['a'], longURL := "https://example.com".toList,
                 createdAt := 0, clicks := 0 })] []
      { sent := 0, dropped := 0 } [] ['a']
      { id := 1, shortCode := ['a'], longURL := "https://example.com".toList,
        createdAt := 0, clicks := 0 } (by decide) (by decide) (by decide)).1
  · exact cache_miss_read_through.2.2.1 [] [] { sent := 0, dropped := 0 } [] ['a']
      (by decide) (by decide) (by decide)

end service

namespace repo

/-- C10: every repository operation that takes a short code re-validates
it before any backend call: with an invalid code each returns
`ErrInvalidShortCode` and hands back the backend state exactly as it was,
for every abstract Postgres pool and Redis client — so no SQL statement or
Redis command can have been issued. -/
theorem repo_validation_guard :
    (∀ (σ : Type) (db : PgxPool σ) (s : σ) (code longURL : List Char),
      validator.IsValidShortCode code = false →
      PostgresRepo.Create db s code longURL = (.error .invalidShortCode, s))
    ∧ (∀ (σ : Type) (db : PgxPool σ) (s : σ) (code : List Char),
      validator.IsValidShortCode code = false →
      PostgresRepo.GetByShortCode db s code = (.error .invalidShortCode, s))
    ∧ (∀ (σ : Type) (db : PgxPool σ) (s : σ) (code : List Char),
      validator.IsValidShortCode code = false →
      PostgresRepo.IncrementClicksCounter db s code = (.error .invalidShortCode, s))
    ∧ (∀ (σ : Type) (cl : RedisClient σ) (s : σ) (code : List Char) (u : URL),
      validator.IsValidShortCode code = false →
      RedisRepo.Set cl s code u = (.error .invalidShortCode, s))
    ∧ (∀ (σ : Type) (cl : RedisClient σ) (s : σ) (code : List Char),
      validator.IsValidShortCode code = false →
      RedisRepo.Get cl s code = (.error .invalidShortCode, s))
    ∧ (∀ (σ : Type) (cl : RedisClient σ) (s : σ) (code : List Char),
      validator.IsValidShortCode code = false →
      RedisRepo.Delete cl s code = (.error .invalidShortCode, s))
    ∧ (∀ (σ : Type) (cl : RedisClient σ) (s : σ) (code : List Char),
      validator.IsValidShortCode code = false →
      RedisRepo.Exists cl s code = (.error .invalidShortCode, s)) := by
  refine ⟨?_, ?_, ?_, ?_, ?_, ?_, ?_⟩
  · intro σ db s code longURL h; simp [PostgresRepo.Create, h]
  · intro σ db s code h; simp [PostgresRepo.GetByShortCode, h]
  · intro σ db s code h; simp [PostgresRepo.IncrementClicksCounter, h]
  · intro σ cl s code u h; simp [RedisRepo.Set, h]
  · intro σ cl s code h; simp [RedisRepo.Get, h]
  · intro σ cl s code h; simp [RedisRepo.Delete, h]
  · intro σ cl s code h; simp [RedisRepo.Exists, h]

/-- C10 witness: the guard at a concrete invalid code (`"bad code!"`), a
trivial backend over `Unit`. -/
theorem repo_validation_guard_witness :
    PostgresRepo.Create
        { insertURL := fun s _ _ => (.error .connection, s),
          selectURL := fun s _ => (.error .noRows, s),
          execIncrement := fun s _ => (.ok 0, s) }
        () "bad code!".toList [] = (.error .invalidShortCode, ())
    ∧ RedisRepo.Get
        { setVal := fun s _ _ => (.ok (), s),
          getVal := fun s _ => (.error .nilReply, s),
          delVal := fun s _ => (.ok (), s),
          existsVal := fun s _ => (.ok 0, s) }
        () "bad code!".toList = (.error .invalidShortCode, ()) := by
  constructor
  · exact repo_validation_guard.1 Unit _ () "bad code!".toList [] (by decide)
  · exact repo_validation_guard.2.2.2.2.1 Unit _ () "bad code!".toList (by decide)

end repo

end GoSnap
